import Mathlib

/-!
Verification development for the mne-pipeline-hd repository.

The Python sources (Pipeline.py, gui/main_window.py,
pipeline_functions/gui_functions.py, custom_functions/melofix.py) are
shallowly embedded below: pure fragments become Lean functions, stateful
GUI fragments become explicit state-passing functions, Python dicts become
association lists with insertion-order semantics, and Python exceptions
become Option/Except values.
-/

namespace MNEPipelineHD

/-! ## Association lists with Python-dict semantics -/

/-- Python dict lookup on an insertion-ordered association list: the list is
built with unique keys (as a Python dict is), so first match is the value. -/
def dictLookup {α : Type} (d : List (String × α)) (k : String) : Option α :=
  (d.find? (fun p => p.1 == k)).map Prod.snd

/-- Keys of an association list, in insertion order. -/
def dictKeys {α : Type} (d : List (String × α)) : List String :=
  d.map Prod.fst

/-- Python key-membership test `k in d`. -/
def dictHasKey {α : Type} (d : List (String × α)) (k : String) : Bool :=
  d.any (fun p => p.1 == k)

/-! ## C1: the completeness guard of MainWindow.import_custom_modules
    (gui/main_window.py lines 386-449) -/

/-- Values held by the Python dict `file_dict` in `import_custom_modules`:
the entries for the functions CSV and the parameters CSV are `None` or a
path string, the entry for the module files is a list. -/
inductive PyVal where
  | pyNone : PyVal
  | pyStr (s : String) : PyVal
  | pyList (l : List String) : PyVal

/-- Python `value is not None`. -/
def pyIsNotNone : PyVal → Bool
  | .pyNone => false
  | _ => true

/-- Python `value != []`: a list compares to `[]` by contents, while `None`
and strings are never equal to a list, so for them the comparison is True. -/
def pyNeEmptyList : PyVal → Bool
  | .pyList l => decide (l ≠ [])
  | _ => true

/-- The guard at main_window.py line 402,
`all([value is not None or value != [] for value in file_dict.values()])`,
over the three entries of `file_dict` (functions, parameters, modules). -/
def fileDictComplete (functions parameters modules : PyVal) : Bool :=
  (pyIsNotNone functions || pyNeEmptyList functions) &&
  (pyIsNotNone parameters || pyNeEmptyList parameters) &&
  (pyIsNotNone modules || pyNeEmptyList modules)

/-- Whether `import_custom_modules` takes the load branch for a scanned
subdirectory (as opposed to the warning branch that shows the
Import-Problem message box): the scan leaves `file_dict` with an optional
functions path, an optional parameters path and a list of module matches. -/
def takesLoadBranch (functions parameters : Option String)
    (modules : List String) : Bool :=
  fileDictComplete
    (match functions with | some s => .pyStr s | none => .pyNone)
    (match parameters with | some s => .pyStr s | none => .pyNone)
    (.pyList modules)

/-! ## C5: duplicate filtering when appending custom CSVs
    (gui/main_window.py lines 437-444) -/

/-- Membership of a key in the index of an existing registry, as in
`read_pd_funcs.index.isin(self.pd_funcs.index)`. -/
def indexIsin {α : Type} (existing : List (String × α)) (k : String) : Bool :=
  existing.any (fun e => e.1 == k)

/-- Appending a custom CSV to a registry as main_window.py lines 441-444 do:
keep only the read rows whose index name is not already in the existing
index, then append them (`self.pd_funcs.append(pd_funcs_to_append)`). -/
def registryAppend {α : Type} (existing newRows : List (String × α)) :
    List (String × α) :=
  existing ++ newRows.filter (fun r => !(indexIsin existing r.1))

/-- All rows of a registry carrying a given index name (`df.loc[k]`). -/
def rowsFor {α : Type} (l : List (String × α)) (k : String) :
    List (String × α) :=
  l.filter (fun r => r.1 == k)

/-! ## C7: MainWindow.load_settings and MainWindow.get_setting
    (gui/main_window.py lines 335-356) -/

/-- Embedding of `MainWindow.load_settings`: `default_settings` is the parsed
default-settings JSON; `settingsFile` is `none` when opening the settings
JSON raises FileNotFoundError, otherwise the parsed file. Keys of the
defaults that are missing from the loaded settings are assigned afterwards,
in default order, which for a Python dict appends them at the end. -/
def load_settings {α : Type} (default_settings : List (String × α))
    (settingsFile : Option (List (String × α))) : List (String × α) :=
  match settingsFile with
  | none => default_settings
  | some loaded =>
      loaded ++ default_settings.filter (fun p => !(dictHasKey loaded p.1))

/-- Embedding of `MainWindow.get_setting`: try `self.settings[setting]`, on
KeyError fall back to `self.default_settings[setting]`. -/
def get_setting {α : Type} (settings default_settings : List (String × α))
    (s : String) : Option α :=
  match dictLookup settings s with
  | some v => some v
  | none => dictLookup default_settings s

/-! ## C4: Start/Stop of the older GUI window and its launcher
    (pipeline_functions/gui_functions.py lines 684-689 and 790-801) -/

/-- State of the older `MainWindow` relevant to the Start and Stop buttons:
`make_it_stop` is initialized to False in `__init__` (line 300), `closed`
records that `self.close()` has run. -/
structure OldWinState where
  make_it_stop : Bool
  closed : Bool

/-- The state right after `__init__`. -/
def oldWinInit : OldWinState := { make_it_stop := false, closed := false }

/-- Embedding of `MainWindow.start` (line 684): `self.close()`. -/
def oldStart (s : OldWinState) : OldWinState :=
  { s with closed := true }

/-- Embedding of `MainWindow.stop` (line 687): `self.close()` followed by
`self.make_it_stop = True`. -/
def oldStop (s : OldWinState) : OldWinState :=
  { s with closed := true, make_it_stop := true }

/-- Embedding of the `__main__` launcher (lines 790-801): after the event
loop, `make_it_stop = win.make_it_stop; if make_it_stop: raise SystemExit(0)`.
`Except.error c` models `SystemExit(c)`; `Except.ok ()` models falling
through, after which the driver script would run. -/
def oldLauncher (s : OldWinState) : Except Nat Unit :=
  if s.make_it_stop then .error 0 else .ok ()

/-! ## C2: the per-subject KeyError recovery of the driver script
    (Pipeline.py lines 305-340) -/

/-- Embedding of `re.match(pattern, name).group()` with
`unspecified_names = True` (Pipeline.py line 52), where the pattern is the
regex dot-star: the dot matches every character except a newline, so the
greedy match from the start of the string returns the longest newline-free
initial segment of `name`. -/
def reMatchDotStar (name : String) : String :=
  String.mk (name.data.takeWhile (fun c => c ≠ '\n'))

/-- The three dictionaries read by the driver before the subject loop
(Pipeline.py lines 223-225). -/
structure DriverDicts where
  erm_dict : List (String × String)
  sub_to_mri : List (String × String)
  bad_channels_dict : List (String × List Int)

/-- The suborg add-functions that the except-branches invoke. -/
inductive AddCall where
  | addErmDict : AddCall
  | addSubDict : AddCall
  | addBadChannelsDict : AddCall
deriving DecidableEq

/-- Outcome of the three try/except KeyError blocks for one subject. -/
structure SubjectLookupResult where
  ermsub : Option String
  subtomri : Option String
  bad_channels : Option (List Int)
  printed : List String
  addCalls : List AddCall

/-- Embedding of Pipeline.py lines 314-340 for one subject `name`: compute
the regex match as prefix, look up `erm_dict` and `sub_to_mri` at that
prefix and `bad_channels_dict` at `name`; a missing key raises KeyError,
which is caught: a message naming the missing key is printed (CPython shows
the key quoted; the quoting is elided here) and the corresponding suborg
add-function is invoked. The function is total, so the loop body never
fails on a missing entry. -/
def subjectLookups (d : DriverDicts) (name : String) : SubjectLookupResult :=
  let pfx := reMatchDotStar name
  let r1 : Option String := dictLookup d.erm_dict pfx
  let r2 : Option String := dictLookup d.sub_to_mri pfx
  let r3 : Option (List Int) := dictLookup d.bad_channels_dict name
  { ermsub := r1, subtomri := r2, bad_channels := r3,
    printed :=
      (match r1 with
        | some _ => [] | none => ["No erm_measurement for " ++ pfx]) ++
      (match r2 with
        | some _ => [] | none => ["No mri_subject assigned to " ++ pfx]) ++
      (match r3 with
        | some _ => [] | none => ["No bad channels for " ++ name]),
    addCalls :=
      (match r1 with | some _ => [] | none => [AddCall.addErmDict]) ++
      (match r2 with | some _ => [] | none => [AddCall.addSubDict]) ++
      (match r3 with | some _ => [] | none => [AddCall.addBadChannelsDict]) }

/-! ## C3: MainWindow.start of the newer GUI and the pipeline_running flag
    (gui/main_window.py lines 106-107 and 764-783) -/

/-- State of the newer `MainWindow` relevant to starting runs:
`pipeline_running` is the flag initialized to False at line 107,
`activeRuns` counts the pipeline runs currently in progress. -/
structure NewWinState where
  pipeline_running : Bool
  activeRuns : Nat

/-- The state right after `__init__` (line 107 sets the flag to False). -/
def newWinInit : NewWinState := { pipeline_running := false, activeRuns := 0 }

/-- Result of one invocation of `MainWindow.start`. -/
structure StartResult where
  state : NewWinState
  warned : Bool
  runDialogCreated : Bool

/-- Modelled from the spec: `RunDialog` lives in
pipeline_functions.function_utils, which is not under src/. Per the spec
(one worker thread at a time via the thread pool) and the comment at
main_window.py line 106 (the flag is True if the pipeline is running, to
avoid parallel starts of RunDialog), creating it begins a run and sets
`pipeline_running`. -/
def runDialogCreate (s : NewWinState) : NewWinState :=
  { pipeline_running := true, activeRuns := s.activeRuns + 1 }

/-- Embedding of `MainWindow.start` (lines 764-783): if `pipeline_running`,
show the Already-running warning box and return; otherwise save, reload
modules, pick the matplotlib backend (all state we do not track) and create
the `RunDialog`. -/
def mwStart (s : NewWinState) : StartResult :=
  if s.pipeline_running then
    { state := s, warned := true, runDialogCreated := false }
  else
    { state := runDialogCreate s, warned := false, runDialogCreated := true }

/-- Modelled from the spec: the worker thread finishing its run resets
`pipeline_running`, allowing the next start. -/
def runFinish (s : NewWinState) : NewWinState :=
  if s.activeRuns = 0 then s
  else { pipeline_running := false, activeRuns := s.activeRuns - 1 }

/-- The events driving the run-related state of the newer main window. -/
inductive MWEvent where
  | start : MWEvent
  | finish : MWEvent

/-- One transition of the newer main window. -/
def mwStep (s : NewWinState) : MWEvent → NewWinState
  | .start => (mwStart s).state
  | .finish => runFinish s

/-- The state reached from the initial state by a sequence of events. -/
def mwRun (evs : List MWEvent) : NewWinState :=
  evs.foldl mwStep newWinInit

/-- The run-count invariant of the newer main window. -/
def mwInv (s : NewWinState) : Prop :=
  s.activeRuns ≤ 1 ∧ s.pipeline_running = decide (s.activeRuns = 1)

/-! ## C6: sub_dict_assign on an existing dict file
    (gui_functions.py lines 36-52); Python strings appear as char lists -/

/-- Key/value split of one line of a dict file: the key is everything
before the first colon, the value everything after it. -/
def splitLine (line : List Char) : List Char × List Char :=
  (line.takeWhile (fun c => c ≠ ':'),
   (line.dropWhile (fun c => c ≠ ':')).drop 1)

/-- Python dict assignment on an insertion-ordered association list: an
existing key keeps its position and receives the new value, a new key is
appended at the end. This renders both source branches of
`sub_dict_assign` (item assignment when the key exists, dict update when
it does not). -/
def pyDictSet (d : List (List Char × List Char)) (k v : List Char) :
    List (List Char × List Char) :=
  if d.any (fun p => p.1 == k) then
    d.map (fun p => if p.1 == k then (k, v) else p)
  else d ++ [(k, v)]

/-- Modelled from the spec: `suborg.read_sub_dict`
(pipeline_functions.subject_organisation, not under src/) reads a dict
file, one `name:value` entry per line with the key before the first colon,
into a Python dict; a later line carrying a duplicate key overrides the
earlier value. -/
def read_sub_dict (lines : List (List Char)) :
    List (List Char × List Char) :=
  lines.foldl
    (fun d line => pyDictSet d (splitLine line).1 (splitLine line).2) []

/-- The write-back loop of `sub_dict_assign`: one `key:value` line per
dict entry, in dict order. -/
def serializeDict (d : List (List Char × List Char)) : List (List Char) :=
  d.map (fun p => p.1 ++ [':'] ++ p.2)

/-- Embedding of `sub_dict_assign` (gui_functions.py lines 36-52):
`fileLines` is `none` when the dict file does not exist yet (the file is
then created with the single new entry); otherwise the existing dict is
read, the selected key is assigned the selected value, and the file is
rewritten with one line per entry. -/
def sub_dict_assign (fileLines : Option (List (List Char)))
    (choice1 choice2 : List Char) : List (List Char) :=
  match fileLines with
  | none => [choice1 ++ [':'] ++ choice2]
  | some lines =>
      serializeDict (pyDictSet (read_sub_dict lines) choice1 choice2)

/-- Lookup in a dict with char-list keys. -/
def subDictLookup (d : List (List Char × List Char)) (k : List Char) :
    Option (List Char) :=
  (d.find? (fun p => p.1 == k)).map Prod.snd

/-- Well-formedness of a dict produced by reading a dict file: keys are
pairwise distinct and contain no colon. -/
def goodKeys (d : List (List Char × List Char)) : Prop :=
  (d.map Prod.fst).Nodup ∧ ∀ p ∈ d, ∀ c ∈ p.1, c ≠ ':'

/-! ## C9: project discovery in both windows
    (gui/main_window.py lines 198-225, gui_functions.py lines 377-398) -/

/-- One round of user interaction in the project-selection loop of the
newer window: the QInputDialog answer (ok flag and entered text) and the
answer the user would give to the Cancel-Start question box shown when the
input is rejected. -/
structure ProjectPrompt where
  ok : Bool
  text : String
  cancelYes : Bool
deriving DecidableEq

/-- Outcome of project discovery: a selected current project together with
the resulting projects list and the name written back to the settings (if
any), a RuntimeError raised after the user confirms cancelling the start,
or `pending` when the modelled interaction stream is exhausted while the
loop would keep prompting. -/
inductive ProjSel where
  | selected (current : String) (projects : List String)
      (persisted : Option String) : ProjSel
  | canceled : ProjSel
  | pending : ProjSel
deriving DecidableEq

/-- Embedding of the while-loop in `MainWindow.get_projects`
(main_window.py lines 202-218), entered when no project directory was
found: prompt for a name until the answer has ok set and a non-empty text
(Python truthiness of the string); a rejected answer leads to the
Cancel-Start box, and answering Yes raises RuntimeError. The accepted name
is appended to the empty projects list and stored in the settings. -/
def getProjectsLoop : List ProjectPrompt → ProjSel
  | [] => .pending
  | pr :: rest =>
      if pr.ok = true ∧ pr.text ≠ "" then
        .selected pr.text [pr.text] (some pr.text)
      else if pr.cancelYes then .canceled
      else getProjectsLoop rest

/-- Embedding of `MainWindow.get_projects` (main_window.py lines 198-225):
`stored` is the settings value for the current project, `dirs` the
subdirectories of the projects path that contain a data folder. -/
def get_projects (stored : Option String) (dirs : List String)
    (prompts : List ProjectPrompt) : ProjSel :=
  match dirs with
  | [] => getProjectsLoop prompts
  | d :: rest =>
      match stored with
      | none => .selected d (d :: rest) (some d)
      | some p =>
          if p ∈ d :: rest then .selected p (d :: rest) none
          else .selected d (d :: rest) (some d)

/-- Embedding of the project part of the older `MainWindow.get_paths`
(gui_functions.py lines 377-398): a single QInputDialog when no project
exists; `ok` alone is checked there (even an empty name is accepted), and
a rejected dialog raises RuntimeError. -/
def get_paths_project (stored : Option String) (dirs : List String)
    (ok : Bool) (text : String) : ProjSel :=
  match dirs with
  | [] => if ok then .selected text [text] (some text) else .canceled
  | d :: rest =>
      match stored with
      | none => .selected d (d :: rest) (some d)
      | some p =>
          if p ∈ d :: rest then .selected p (d :: rest) none
          else .selected d (d :: rest) (some d)

/-! ## C10: bad-channel checkbox labels and their numeric recovery
    (gui_functions.py lines 212-219 and 251-262) -/

/-- Decimal digit characters. -/
def digitChar : Nat → Char
  | 0 => '0' | 1 => '1' | 2 => '2' | 3 => '3' | 4 => '4'
  | 5 => '5' | 6 => '6' | 7 => '7' | 8 => '8' | _ => '9'

/-- Embedding of the Python format spec 03 applied to the channel number:
zero-padded three-digit decimal. The GUI formats x between 1 and 122
(channel_count), for which width-3 zero padding is exactly the three
decimal digits produced here. -/
def pad3 (x : Nat) : List Char :=
  [digitChar ((x / 100) % 10), digitChar ((x / 10) % 10), digitChar (x % 10)]

/-- The checkbox label built at gui_functions.py line 214, as a character
list: MEG, a space, then the zero-padded channel number. -/
def mkChannelName (x : Nat) : List Char :=
  ['M', 'E', 'G', ' '] ++ pad3 x

/-- The channel count of `BadChannelsSelect` (line 191). -/
def channel_count : Nat := 122

/-- The labels created by `BadChannelsSelect.initui` for x from 1 to
channel_count. -/
def channelLabels : List (List Char) :=
  (List.range channel_count).map (fun i => mkChannelName (i + 1))

/-- Numeric value of a decimal digit character (int() on one digit). -/
def charDigitVal (c : Char) : Nat := c.toNat - 48

/-- Python int() on a string of decimal digits (the only shape the labels
produce for their last three characters). -/
def decimalVal (cs : List Char) : Nat :=
  cs.foldl (fun acc c => 10 * acc + charDigitVal c) 0

/-- Embedding of `int(ch[-3:])` (gui_functions.py line 260): the last three
characters of the label, read as a decimal number. -/
def recoverNum (ch : List Char) : Nat :=
  decimalVal (ch.drop (ch.length - 3))

/-- Embedding of the collection loop of `bad_dict_assign` (lines 255-260):
walk the checkbox dict in insertion order, and for each checked channel
append its name to `bad_channels` and its recovered number to
`second_list` (the list passed to dict_filehandler). -/
def bad_dict_assign_lists (chkbts : List (List Char))
    (checked : List Char → Bool) : List (List Char) × List Nat :=
  chkbts.foldl
    (fun acc ch =>
      if checked ch then (acc.1 ++ [ch], acc.2 ++ [recoverNum ch]) else acc)
    ([], [])

/-! ## C8: melofix_event_handling
    (custom_functions/melofix.py lines 10-47); only the event-code column
    appears below, since the loop reads and writes column 2 alone -/

/-- Numpy index semantics for the accesses of `melofix_event_handling`: a
negative index addresses position length + i. The loop only ever produces
indices in the valid numpy range -length..length-1; outside it numpy would
raise IndexError, while the getD/set based model defaults or does nothing
there, a region no theorem below touches. -/
def npIdx (length : Nat) (i : Int) : Nat :=
  (if i < 0 then (length : Int) + i else i).toNat

/-- Read of the code column, events[i, 2]. -/
def npGet (cs : List Int) (i : Int) : Int :=
  cs.getD (npIdx cs.length i) 0

/-- Write of the code column, events[i, 2] = v. -/
def npSet (cs : List Int) (i : Int) (v : Int) : List Int :=
  cs.set (npIdx cs.length i) v

/-- One iteration of the rewriting loop (melofix.py lines 25-41) at index
n: when the code at n is 58, the chained equality of the four preceding
codes selects the fixed rewrite 1,2,2,2 or the melody rewrite 3,4,4,4,
applied in source order at n-4, n-3, n-2, n-1. -/
def melofixStep (cs : List Int) (n : Nat) : List Int :=
  if cs.getD n 0 = 58 then
    if npGet cs ((n : Int) - 1) = npGet cs ((n : Int) - 2) ∧
        npGet cs ((n : Int) - 2) = npGet cs ((n : Int) - 3) ∧
        npGet cs ((n : Int) - 3) = npGet cs ((n : Int) - 4) then
      npSet (npSet (npSet (npSet cs ((n : Int) - 4) 1)
        ((n : Int) - 3) 2) ((n : Int) - 2) 2) ((n : Int) - 1) 2
    else
      npSet (npSet (npSet (npSet cs ((n : Int) - 4) 3)
        ((n : Int) - 3) 4) ((n : Int) - 2) 4) ((n : Int) - 1) 4
  else cs

/-- The full rewriting loop, for n in range(len(events)). -/
def melofixPass (cs : List Int) : List Int :=
  (List.range cs.length).foldl melofixStep cs

/-- Embedding of `melofix_event_handling` on the list of event codes: the
assertion len(events) != 0 fails on an empty event list; otherwise the
loop rewrites the codes and the events are written out. -/
def melofixRun (cs : List Int) : Option (List Int) :=
  if cs.length = 0 then none else some (melofixPass cs)

/-- Whether m lies in the four-predecessor window of some original code-58
event, that is, some n with code 58 satisfies n - 4 ≤ m ≤ n - 1. -/
def isPred58 (cs : List Int) (m : Nat) : Bool :=
  (List.range cs.length).any
    (fun n => cs.getD n 0 == 58 && decide (m + 1 ≤ n) && decide (n ≤ m + 4))

/-- The chained equality of the four codes preceding n, on the original
codes. -/
def windowAllEq (cs : List Int) (n : Nat) : Bool :=
  (cs.getD (n - 1) 0 == cs.getD (n - 2) 0) &&
  (cs.getD (n - 2) 0 == cs.getD (n - 3) 0) &&
  (cs.getD (n - 3) 0 == cs.getD (n - 4) 0)

/-- The code the claim prescribes for the window member m of the code-58
event at n: the onset value at the earliest of the four predecessors and
the filler value at the other three. -/
def claimValue (cs : List Int) (n m : Nat) : Int :=
  if windowAllEq cs n then (if m + 4 = n then 1 else 2)
  else (if m + 4 = n then 3 else 4)

/-- C8 exactly as claimed: the empty event list fails the assertion; an
event outside every predecessor window of a code-58 event keeps its code;
a window member of a code-58 event receives the prescribed rewrite. -/
def MelofixClaim : Prop :=
  melofixRun [] = none ∧
  ∀ cs : List Int, ∀ m : Nat, m < cs.length →
    (isPred58 cs m = false → (melofixPass cs).getD m 0 = cs.getD m 0) ∧
    (∀ n : Nat, n < cs.length → cs.getD n 0 = 58 → m + 1 ≤ n → n ≤ m + 4 →
      (melofixPass cs).getD m 0 = claimValue cs n m)

/-- The first code-58 event among the indices below k whose window
contains m (the loop processes indices in increasing order). -/
def firstPred58 (cs : List Int) (k m : Nat) : Option Nat :=
  (List.range k).find?
    (fun n => cs.getD n 0 == 58 && decide (m + 1 ≤ n) && decide (n ≤ m + 4))

/-- The code predicted at position m after the loop has processed the
indices below k. -/
def expectedAt (cs : List Int) (k m : Nat) : Int :=
  match firstPred58 cs k m with
  | some n => claimValue cs n m
  | none => cs.getD m 0

/-! ## Theorems -/

/-- C1: the completeness guard of `import_custom_modules` is constantly
true, because for the functions and parameters entries `value != []`
already holds when the value is `None`. Hence the load branch is taken for
every scanned subdirectory, even one missing the functions CSV, the
parameters CSV and all module files, and the Import-Problem warning branch
is unreachable, contradicting the comment at line 401 announcing the check
for a whole set of files. -/
theorem import_custom_modules_guard_constant :
    ∀ (functions parameters : Option String) (modules : List String),
      takesLoadBranch functions parameters modules = true := by
  intro functions parameters modules
  cases functions <;> cases parameters <;>
    simp [takesLoadBranch, fileDictComplete, pyIsNotNone, pyNeEmptyList]

/-- C4: in the older GUI, `stop` closes the window and sets `make_it_stop`,
after which the launcher raises SystemExit(0); `start` closes the window
without touching `make_it_stop`, so from the initial state (where it is
False) the launcher falls through and the driver proceeds. -/
theorem old_gui_start_stop_launcher :
    (∀ s, (oldStop s).closed = true ∧ (oldStop s).make_it_stop = true) ∧
    oldLauncher (oldStop oldWinInit) = .error 0 ∧
    (∀ s, (oldStart s).closed = true ∧
      (oldStart s).make_it_stop = s.make_it_stop) ∧
    oldWinInit.make_it_stop = false ∧
    oldLauncher (oldStart oldWinInit) = .ok () := by
  refine ⟨fun s => ⟨rfl, rfl⟩, rfl, fun s => ⟨rfl, rfl⟩, rfl, rfl⟩

/-- C5: appending a custom CSV never overrides or duplicates an already
registered name: the rows carrying a name already in the existing registry
are exactly the existing ones, and every appended row has a fresh name. -/
theorem registry_append_no_override {α : Type}
    (existing newRows : List (String × α)) (k : String)
    (hk : k ∈ dictKeys existing) :
    rowsFor (registryAppend existing newRows) k = rowsFor existing k ∧
    ∀ r ∈ registryAppend existing newRows,
      r ∈ existing ∨ ¬(r.1 ∈ dictKeys existing) := by
  constructor
  · have hkeep :
        rowsFor (newRows.filter (fun r => !(indexIsin existing r.1))) k = [] := by
      rw [rowsFor, List.filter_eq_nil_iff]
      intro r hr
      have hr2 := List.of_mem_filter hr
      simp only [Bool.not_eq_true', indexIsin] at hr2
      intro hrk
      have : existing.any (fun e => e.1 == k) = true := by
        rcases List.mem_map.mp hk with ⟨e, he, hek⟩
        exact List.any_eq_true.mpr ⟨e, he, by simp [hek]⟩
      have hrk' : r.1 = k := by simpa using hrk
      rw [hrk'] at hr2
      simp [this] at hr2
    rw [registryAppend, rowsFor, List.filter_append]
    rw [rowsFor] at hkeep
    rw [hkeep, List.append_nil, rowsFor]
  · intro r hr
    rcases List.mem_append.mp hr with h | h
    · exact Or.inl h
    · right
      have hr2 := List.of_mem_filter h
      simp only [Bool.not_eq_true', indexIsin] at hr2
      intro hmem
      rcases List.mem_map.mp hmem with ⟨e, he, hek⟩
      have : existing.any (fun e => e.1 == r.1) = true :=
        List.any_eq_true.mpr ⟨e, he, by simp [hek]⟩
      simp [this] at hr2

lemma dictLookup_isSome_iff {α : Type} (d : List (String × α)) (k : String) :
    (dictLookup d k).isSome = true ↔ k ∈ dictKeys d := by
  unfold dictLookup dictKeys
  rcases hf : d.find? (fun p => p.1 == k) with _ | p
  · rw [hf]
    simp only [Option.map_none', Option.isSome_none, Bool.false_eq_true,
      false_iff]
    intro hk
    rcases List.mem_map.mp hk with ⟨p, hp, hpk⟩
    have := List.find?_eq_none.mp hf p hp
    simp [hpk] at this
  · rw [hf]
    simp only [Option.map_some', Option.isSome_some, true_iff]
    have hmem := List.mem_of_find?_eq_some hf
    have hp := List.find?_some hf
    exact List.mem_map.mpr ⟨p, hmem, by simpa using hp⟩

/-- C2: in the per-subject loop, a missing dictionary entry (empty-room
file, MRI subject, or bad channels) is caught: the message is printed and
the corresponding add-function invoked; a present entry is bound and no
add-function is invoked for it. The hypothesis states that `name` is
newline-free, so that the dot-star regex match returns the whole name, as
it does for every name read line-wise from the subject-list file. -/
theorem subject_loop_keyerror_recovery (d : DriverDicts) (name : String)
    (hname : reMatchDotStar name = name) :
    (dictLookup d.erm_dict name = none →
      AddCall.addErmDict ∈ (subjectLookups d name).addCalls ∧
      ("No erm_measurement for " ++ name) ∈ (subjectLookups d name).printed) ∧
    (dictLookup d.sub_to_mri name = none →
      AddCall.addSubDict ∈ (subjectLookups d name).addCalls ∧
      ("No mri_subject assigned to " ++ name) ∈
        (subjectLookups d name).printed) ∧
    (dictLookup d.bad_channels_dict name = none →
      AddCall.addBadChannelsDict ∈ (subjectLookups d name).addCalls ∧
      ("No bad channels for " ++ name) ∈ (subjectLookups d name).printed) ∧
    (∀ v, dictLookup d.erm_dict name = some v →
      (subjectLookups d name).ermsub = some v ∧
      AddCall.addErmDict ∉ (subjectLookups d name).addCalls) ∧
    (∀ v, dictLookup d.sub_to_mri name = some v →
      (subjectLookups d name).subtomri = some v ∧
      AddCall.addSubDict ∉ (subjectLookups d name).addCalls) ∧
    (∀ v, dictLookup d.bad_channels_dict name = some v →
      (subjectLookups d name).bad_channels = some v ∧
      AddCall.addBadChannelsDict ∉ (subjectLookups d name).addCalls) := by
  simp only [subjectLookups, hname]
  rcases h1 : dictLookup d.erm_dict name with _ | v1 <;>
    rcases h2 : dictLookup d.sub_to_mri name with _ | v2 <;>
      rcases h3 : dictLookup d.bad_channels_dict name with _ | v3 <;>
        simp [h1, h2, h3]

/-- Witness for C2: a subject whose prefix is missing from the empty-room
and MRI dictionaries but has a bad-channel entry. -/
theorem subject_loop_keyerror_recovery_witness :
    AddCall.addErmDict ∈
      (subjectLookups ⟨[], [], [("s1", [3])]⟩ "s1").addCalls ∧
    AddCall.addBadChannelsDict ∉
      (subjectLookups ⟨[], [], [("s1", [3])]⟩ "s1").addCalls := by
  have h := subject_loop_keyerror_recovery ⟨[], [], [("s1", [3])]⟩ "s1"
    (by decide)
  exact ⟨(h.1 (by decide)).1, ((h.2.2.2.2.2 [3]) (by decide)).2⟩

lemma mwStep_preserves (s : NewWinState) (e : MWEvent) (h : mwInv s) :
    mwInv (mwStep s e) := by
  obtain ⟨hle, hflag⟩ := h
  cases e with
  | start =>
    by_cases hr : s.pipeline_running = true
    · simp only [mwStep, mwStart, hr, if_pos]
      exact ⟨hle, hflag⟩
    · have hr' : s.pipeline_running = false := by simpa using hr
      have h1 : decide (s.activeRuns = 1) = false := by
        rw [hr'] at hflag
        exact hflag.symm
      have hne : s.activeRuns ≠ 1 := by simpa using h1
      have h0 : s.activeRuns = 0 := by omega
      simp [mwStep, mwStart, hr', runDialogCreate, mwInv, h0]
  | finish =>
    by_cases h0 : s.activeRuns = 0
    · simp only [mwStep, runFinish, h0, if_pos]
      exact ⟨hle, hflag⟩
    · have h1 : s.activeRuns = 1 := by omega
      simp [mwStep, runFinish, h0, mwInv, h1]

lemma mwRun_inv_aux (evs : List MWEvent) :
    ∀ s : NewWinState, mwInv s → mwInv (evs.foldl mwStep s) := by
  induction evs with
  | nil => intro s h; exact h
  | cons e rest ih => intro s h; exact ih _ (mwStep_preserves s e h)

/-- C3: at most one pipeline run is in progress in any reachable state of
the newer main window; when `start` is invoked while `pipeline_running` is
True it only shows the warning box and creates no RunDialog, and a
RunDialog is only created from a state where `pipeline_running` is False. -/
theorem single_pipeline_run_invariant :
    (∀ evs : List MWEvent, (mwRun evs).activeRuns ≤ 1) ∧
    (∀ s : NewWinState, s.pipeline_running = true →
      (mwStart s).warned = true ∧ (mwStart s).runDialogCreated = false ∧
      (mwStart s).state = s) ∧
    (∀ s : NewWinState, (mwStart s).runDialogCreated = true →
      s.pipeline_running = false) := by
  refine ⟨fun evs => (mwRun_inv_aux evs newWinInit ⟨by simp [newWinInit], by simp [newWinInit]⟩).1, ?_, ?_⟩
  · intro s hs
    simp [mwStart, hs]
  · intro s hs
    by_cases hr : s.pipeline_running = true
    · simp [mwStart, hr] at hs
    · simpa using hr

/-- Witness for C3: starting while the pipeline is running warns and does
not create a RunDialog. -/
theorem single_pipeline_run_invariant_witness :
    (mwStart ⟨true, 1⟩).warned = true ∧
    (mwStart ⟨true, 1⟩).runDialogCreated = false :=
  ⟨(single_pipeline_run_invariant.2.1 ⟨true, 1⟩ rfl).1,
   (single_pipeline_run_invariant.2.1 ⟨true, 1⟩ rfl).2.1⟩

/-- C7: the loaded settings cover every key of the defaults; with no
settings file the defaults are used as-is, and `get_setting` returns the
stored value when present, the default otherwise, hence never fails for a
key of the defaults. -/
theorem load_settings_covers_defaults {α : Type}
    (default_settings : List (String × α))
    (settingsFile : Option (List (String × α))) (k : String)
    (hk : k ∈ dictKeys default_settings) :
    k ∈ dictKeys (load_settings default_settings settingsFile) ∧
    load_settings default_settings none = default_settings ∧
    (get_setting (load_settings default_settings settingsFile)
      default_settings k).isSome = true ∧
    (∀ settings : List (String × α),
      ((dictLookup settings k).isSome = true →
        get_setting settings default_settings k = dictLookup settings k) ∧
      (dictLookup settings k = none →
        get_setting settings default_settings k =
          dictLookup default_settings k)) := by
  have hmem : k ∈ dictKeys (load_settings default_settings settingsFile) := by
    cases settingsFile with
    | none => exact hk
    | some loaded =>
      by_cases hhas : dictHasKey loaded k = true
      · rcases List.any_eq_true.mp hhas with ⟨p, hp, hpk⟩
        have : k ∈ dictKeys loaded :=
          List.mem_map.mpr ⟨p, hp, by simpa using hpk⟩
        simp only [load_settings, dictKeys, List.map_append, List.mem_append]
        exact Or.inl this
      · rcases List.mem_map.mp hk with ⟨p, hp, hpk⟩
        have hfilt : p ∈ default_settings.filter
            (fun q => !(dictHasKey loaded q.1)) := by
          refine List.mem_filter.mpr ⟨hp, ?_⟩
          rw [hpk]
          simpa using hhas
        simp only [load_settings, dictKeys, List.map_append, List.mem_append]
        exact Or.inr (List.mem_map.mpr ⟨p, hfilt, hpk⟩)
  refine ⟨hmem, rfl, ?_, ?_⟩
  · rcases hcase : dictLookup (load_settings default_settings settingsFile) k
      with _ | v
    · have : (dictLookup (load_settings default_settings settingsFile)
          k).isSome = true := (dictLookup_isSome_iff _ _).mpr hmem
      rw [hcase] at this
      simp at this
    · simp [get_setting, hcase]
  · intro settings
    constructor
    · intro hsome
      rcases hcase : dictLookup settings k with _ | v
      · rw [hcase] at hsome; simp at hsome
      · simp [get_setting, hcase]
    · intro hnone
      simp [get_setting, hnone]

/-- Witness for C7 at a concrete defaults table and settings file missing
one of the default keys. -/
theorem load_settings_covers_defaults_witness :
    (get_setting
      (load_settings [("dark_mode", 0), ("current_project", 1)]
        (some [("dark_mode", 5)]))
      [("dark_mode", 0), ("current_project", 1)]
      "current_project").isSome = true :=
  (load_settings_covers_defaults
    [("dark_mode", 0), ("current_project", 1)]
    (some [("dark_mode", 5)]) "current_project" (by decide)).2.2.1

/-- Witness for C5 at a concrete registry: the name a is already
registered, and the appended table tries to redefine it. -/
theorem registry_append_no_override_witness :
    rowsFor (registryAppend [("a", 1), ("b", 2)] [("a", 9), ("c", 3)]) "a" =
      rowsFor [("a", 1), ("b", 2)] "a" ∧
    ∀ r ∈ registryAppend [("a", 1), ("b", 2)] [("a", 9), ("c", 3)],
      r ∈ [("a", 1), ("b", 2)] ∨ ¬(r.1 ∈ dictKeys [("a", 1), ("b", 2)]) :=
  registry_append_no_override [("a", 1), ("b", 2)] [("a", 9), ("c", 3)] "a"
    (by decide)

lemma takeWhile_ne_colon :
    ∀ (k v : List Char), (∀ c ∈ k, c ≠ ':') →
      (k ++ ':' :: v).takeWhile (fun c => c ≠ ':') = k := by
  intro k
  induction k with
  | nil => intro v _; simp [List.takeWhile_cons]
  | cons a t ih =>
    intro v hk
    have ha : a ≠ ':' := hk a (by simp)
    rw [List.cons_append, List.takeWhile_cons,
      if_pos (show decide (a ≠ ':') = true by simp [ha]),
      ih v (fun c hc => hk c (List.mem_cons_of_mem a hc))]

lemma dropWhile_ne_colon :
    ∀ (k v : List Char), (∀ c ∈ k, c ≠ ':') →
      (k ++ ':' :: v).dropWhile (fun c => c ≠ ':') = ':' :: v := by
  intro k
  induction k with
  | nil => intro v _; simp [List.dropWhile_cons]
  | cons a t ih =>
    intro v hk
    have ha : a ≠ ':' := hk a (by simp)
    rw [List.cons_append, List.dropWhile_cons,
      if_pos (show decide (a ≠ ':') = true by simp [ha]),
      ih v (fun c hc => hk c (List.mem_cons_of_mem a hc))]

lemma splitLine_serialize (k v : List Char) (hk : ∀ c ∈ k, c ≠ ':') :
    splitLine (k ++ [':'] ++ v) = (k, v) := by
  have hkv : k ++ [':'] ++ v = k ++ ':' :: v := by simp
  rw [splitLine, hkv, takeWhile_ne_colon k v hk, dropWhile_ne_colon k v hk]
  simp

lemma pyDictSet_goodKeys (d : List (List Char × List Char))
    (k v : List Char) (hd : goodKeys d) (hk : ∀ c ∈ k, c ≠ ':') :
    goodKeys (pyDictSet d k v) := by
  obtain ⟨hnd, hcf⟩ := hd
  unfold pyDictSet
  by_cases h : d.any (fun p => p.1 == k) = true
  · rw [if_pos h]
    constructor
    · have hkeys :
          (d.map (fun p => if p.1 == k then (k, v) else p)).map Prod.fst =
            d.map Prod.fst := by
        rw [List.map_map]
        apply List.map_congr_left
        intro p hp
        by_cases hpk : (p.1 == k) = true
        · have hpk' : p.1 = k := by simpa using hpk
          simp [Function.comp, hpk, hpk']
        · simp [Function.comp, hpk]
      rw [hkeys]
      exact hnd
    · intro q hq
      rcases List.mem_map.mp hq with ⟨p, hp, hfp⟩
      by_cases hpk : (p.1 == k) = true
      · rw [if_pos hpk] at hfp
        intro c hc
        rw [← hfp] at hc
        exact hk c hc
      · rw [if_neg hpk] at hfp
        rw [← hfp]
        exact hcf p hp
  · rw [if_neg h]
    constructor
    · rw [List.map_append]
      simp only [List.map_cons, List.map_nil]
      rw [List.nodup_append]
      refine ⟨hnd, List.nodup_singleton k, ?_⟩
      intro a ha hak
      rcases List.mem_map.mp ha with ⟨p, hp, hpa⟩
      have hak' : a = k := by simpa using hak
      exact h (List.any_eq_true.mpr ⟨p, hp, by simp [hpa, hak']⟩)
    · intro q hq
      rcases List.mem_append.mp hq with hq | hq
      · exact hcf q hq
      · have hq' : q = (k, v) := by simpa using hq
        rw [hq']
        exact hk

lemma read_sub_dict_goodKeys (lines : List (List Char)) :
    goodKeys (read_sub_dict lines) := by
  suffices h : ∀ (ls : List (List Char)) (d : List (List Char × List Char)),
      goodKeys d →
      goodKeys (ls.foldl
        (fun d line => pyDictSet d (splitLine line).1 (splitLine line).2) d) by
    exact h lines [] ⟨List.nodup_nil, by simp⟩
  intro ls
  induction ls with
  | nil => intro d hd; exact hd
  | cons line rest ih =>
    intro d hd
    apply ih
    apply pyDictSet_goodKeys _ _ _ hd
    intro c hc
    have := List.mem_takeWhile_imp hc
    simpa using this

lemma read_serialize_aux :
    ∀ (d acc : List (List Char × List Char)),
      (d.map Prod.fst).Nodup →
      (∀ p ∈ d, ∀ c ∈ p.1, c ≠ ':') →
      (∀ p ∈ d, acc.any (fun q => q.1 == p.1) = false) →
      (serializeDict d).foldl
        (fun d line => pyDictSet d (splitLine line).1 (splitLine line).2) acc
        = acc ++ d := by
  intro d
  induction d with
  | nil => intro acc _ _ _; simp [serializeDict]
  | cons p t ih =>
    intro acc hnd hcf hdisj
    obtain ⟨k, v⟩ := p
    have hkcf : ∀ c ∈ k, c ≠ ':' := fun c hc => hcf (k, v) (by simp) c hc
    have hcons : (k ∉ t.map Prod.fst) ∧ (t.map Prod.fst).Nodup := by
      have hnd' : (k :: t.map Prod.fst).Nodup := by simpa using hnd
      exact List.nodup_cons.mp hnd'
    rw [show serializeDict ((k, v) :: t) =
        (k ++ [':'] ++ v) :: serializeDict t from rfl, List.foldl_cons]
    rw [splitLine_serialize k v hkcf]
    have hany : acc.any (fun q => q.1 == k) = false := hdisj (k, v) (by simp)
    have hset : pyDictSet acc k v = acc ++ [(k, v)] := by
      rw [pyDictSet, if_neg (by rw [hany]; exact Bool.false_ne_true)]
    rw [hset]
    have hdisj2 : ∀ q ∈ t, ((acc ++ [(k, v)]).any fun r => r.1 == q.1) = false := by
      intro q hq
      rw [List.any_append]
      have h1 : acc.any (fun r => r.1 == q.1) = false :=
        hdisj q (List.mem_cons_of_mem _ hq)
      have h2 : (k == q.1) = false := by
        have hmem : q.1 ∈ t.map Prod.fst := List.mem_map.mpr ⟨q, hq, rfl⟩
        have hne : k ≠ q.1 := fun he => hcons.1 (he ▸ hmem)
        simpa using hne
      simp [h1, h2]
    rw [ih (acc ++ [(k, v)]) hcons.2
      (fun q hq => hcf q (List.mem_cons_of_mem _ hq)) hdisj2]
    simp

lemma read_serialize (d : List (List Char × List Char))
    (hd : goodKeys d) : read_sub_dict (serializeDict d) = d := by
  rw [read_sub_dict, read_serialize_aux d [] hd.1 hd.2 (by simp)]
  simp

lemma find?_map_replace :
    ∀ (d : List (List Char × List Char)) (k v : List Char),
      d.any (fun p => p.1 == k) = true →
      (d.map (fun p => if p.1 == k then (k, v) else p)).find?
        (fun p => p.1 == k) = some (k, v) := by
  intro d k v
  induction d with
  | nil => intro h; simp at h
  | cons p t ih =>
    intro h
    by_cases hp : (p.1 == k) = true
    · simp only [List.map_cons, if_pos hp]
      exact List.find?_cons_of_pos _ (by simp)
    · simp only [List.map_cons, if_neg hp]
      rw [List.find?_cons_of_neg _ (by simpa using hp)]
      apply ih
      simpa [List.any_cons, hp] using h

lemma find?_map_replace_other
    (d : List (List Char × List Char)) (k v k' : List Char)
    (hne : (k == k') = false) :
    (d.map (fun p => if p.1 == k then (k, v) else p)).find?
      (fun p => p.1 == k') = d.find? (fun p => p.1 == k') := by
  induction d with
  | nil => simp
  | cons p t ih =>
    by_cases hp : (p.1 == k) = true
    · have hp' : p.1 = k := by simpa using hp
      have h1 : ((k, v) ::
          t.map (fun q => if q.1 == k then (k, v) else q)).find?
            (fun q => q.1 == k') =
          (t.map (fun q => if q.1 == k then (k, v) else q)).find?
            (fun q => q.1 == k') :=
        List.find?_cons_of_neg _ (by simp [hne])
      have h2 : (p :: t).find? (fun q => q.1 == k') =
          t.find? (fun q => q.1 == k') :=
        List.find?_cons_of_neg _ (by simp [hp', hne])
      simp only [List.map_cons, if_pos hp]
      rw [h1, h2, ih]
    · simp only [List.map_cons, if_neg hp]
      by_cases hk2 : (p.1 == k') = true
      · have e1 : (p ::
            t.map (fun q => if q.1 == k then (k, v) else q)).find?
              (fun q => q.1 == k') = some p :=
          List.find?_cons_of_pos _ hk2
        have e2 : (p :: t).find? (fun q => q.1 == k') = some p :=
          List.find?_cons_of_pos _ hk2
        rw [e1, e2]
      · have e1 : (p ::
            t.map (fun q => if q.1 == k then (k, v) else q)).find?
              (fun q => q.1 == k') =
            (t.map (fun q => if q.1 == k then (k, v) else q)).find?
              (fun q => q.1 == k') :=
          List.find?_cons_of_neg _ (by simpa using hk2)
        have e2 : (p :: t).find? (fun q => q.1 == k') =
            t.find? (fun q => q.1 == k') :=
          List.find?_cons_of_neg _ (by simpa using hk2)
        rw [e1, e2, ih]

lemma subDictLookup_set_self (d : List (List Char × List Char))
    (k v : List Char) : subDictLookup (pyDictSet d k v) k = some v := by
  unfold subDictLookup pyDictSet
  by_cases h : d.any (fun p => p.1 == k) = true
  · rw [if_pos h, find?_map_replace d k v h]
    rfl
  · rw [if_neg h, List.find?_append]
    have hnone : d.find? (fun p => p.1 == k) = none :=
      List.find?_eq_none.mpr
        (fun p hp hpk => h (List.any_eq_true.mpr ⟨p, hp, hpk⟩))
    rw [hnone]
    simp

lemma subDictLookup_set_other (d : List (List Char × List Char))
    (k v k' : List Char) (hne : k' ≠ k) :
    subDictLookup (pyDictSet d k v) k' = subDictLookup d k' := by
  have hne' : (k == k') = false := by simpa using (Ne.symm hne)
  unfold subDictLookup pyDictSet
  by_cases h : d.any (fun p => p.1 == k) = true
  · rw [if_pos h, find?_map_replace_other d k v k' hne']
  · rw [if_neg h, List.find?_append]
    have hsing : ([((k : List Char), v)].find? (fun p => p.1 == k')) = none := by
      simp [hne']
    rw [hsing]
    simp

/-- C6: rewriting an existing sub-dict file writes exactly one
`key:value` line per dict entry, and the rewritten file parses back to the
old dict with the selected key now bound to the selected value: the chosen
key maps to the chosen value, every other key keeps its previous value,
and a previously absent key is appended with all existing entries
preserved. The hypothesis states that the selected key contains no colon,
as holds for every key that can be parsed out of a dict-file line. -/
theorem sub_dict_assign_preserves (lines : List (List Char))
    (choice1 choice2 : List Char) (hc : ∀ c ∈ choice1, c ≠ ':') :
    read_sub_dict (sub_dict_assign (some lines) choice1 choice2) =
      pyDictSet (read_sub_dict lines) choice1 choice2 ∧
    (sub_dict_assign (some lines) choice1 choice2).length =
      (pyDictSet (read_sub_dict lines) choice1 choice2).length ∧
    subDictLookup
      (read_sub_dict (sub_dict_assign (some lines) choice1 choice2))
      choice1 = some choice2 ∧
    (∀ k, k ≠ choice1 →
      subDictLookup
        (read_sub_dict (sub_dict_assign (some lines) choice1 choice2)) k =
        subDictLookup (read_sub_dict lines) k) ∧
    ((read_sub_dict lines).any (fun p => p.1 == choice1) = false →
      read_sub_dict (sub_dict_assign (some lines) choice1 choice2) =
        read_sub_dict lines ++ [(choice1, choice2)]) := by
  have hgood : goodKeys (read_sub_dict lines) := read_sub_dict_goodKeys lines
  have hgood2 : goodKeys (pyDictSet (read_sub_dict lines) choice1 choice2) :=
    pyDictSet_goodKeys _ _ _ hgood hc
  have hround :
      read_sub_dict (sub_dict_assign (some lines) choice1 choice2) =
        pyDictSet (read_sub_dict lines) choice1 choice2 :=
    read_serialize _ hgood2
  refine ⟨hround, ?_, ?_, ?_, ?_⟩
  · show (serializeDict _).length = _
    simp [serializeDict]
  · rw [hround]
    exact subDictLookup_set_self _ _ _
  · intro k hk
    rw [hround]
    exact subDictLookup_set_other _ _ _ _ hk
  · intro hany
    rw [hround, pyDictSet, if_neg (by rw [hany]; exact Bool.false_ne_true)]

/-- Witness for C6 on a concrete two-entry dict file: reassigning the
first key preserves the other entry and stores the new value. -/
theorem sub_dict_assign_preserves_witness :
    subDictLookup
      (read_sub_dict
        (sub_dict_assign (some [['a', ':', 'x'], ['b', ':', 'y']])
          ['a'] ['z'])) ['a'] = some ['z'] ∧
    subDictLookup
      (read_sub_dict
        (sub_dict_assign (some [['a', ':', 'x'], ['b', ':', 'y']])
          ['a'] ['z'])) ['b'] =
      subDictLookup (read_sub_dict [['a', ':', 'x'], ['b', ':', 'y']])
        ['b'] :=
  ⟨(sub_dict_assign_preserves [['a', ':', 'x'], ['b', ':', 'y']]
      ['a'] ['z'] (by decide)).2.2.1,
   (sub_dict_assign_preserves [['a', ':', 'x'], ['b', ':', 'y']]
      ['a'] ['z'] (by decide)).2.2.2.1 ['b'] (by decide)⟩

lemma npIdx_natCast (L i : Nat) : npIdx L ((i : Nat) : Int) = i := by
  unfold npIdx
  rw [if_neg (by omega)]
  omega

lemma npSet_natCast (s : List Int) (i : Nat) (v : Int) :
    npSet s ((i : Nat) : Int) v = s.set i v := by
  unfold npSet
  rw [npIdx_natCast]

lemma getD_set_self (l : List Int) (i : Nat) (v : Int) (h : i < l.length) :
    (l.set i v).getD i 0 = v := by
  rw [List.getD_eq_getElem?_getD, List.getElem?_set_self h]
  rfl

lemma getD_set_ne (l : List Int) (i m : Nat) (v : Int) (h : i ≠ m) :
    (l.set i v).getD m 0 = l.getD m 0 := by
  rw [List.getD_eq_getElem?_getD, List.getElem?_set_ne h,
    ← List.getD_eq_getElem?_getD]

lemma firstPred58_self_none (cs : List Int) (k : Nat) :
    firstPred58 cs k k = none := by
  unfold firstPred58
  apply List.find?_eq_none.mpr
  intro n hn
  have hnk : n < k := List.mem_range.mp hn
  simp only [Bool.and_eq_true, beq_iff_eq, decide_eq_true_eq]
  rintro ⟨⟨_, h1⟩, _⟩
  omega

lemma firstPred58_succ (cs : List Int) (k m : Nat) :
    firstPred58 cs (k + 1) m =
      (firstPred58 cs k m).or
        (if cs.getD k 0 == 58 && decide (m + 1 ≤ k) && decide (k ≤ m + 4)
          then some k else none) := by
  unfold firstPred58
  rw [List.range_succ, List.find?_append, List.find?_singleton]

lemma setQuad_getD (s : List Int) (k : Nat) (a b : Int) (hk4 : 4 ≤ k)
    (hkL : k < s.length) :
    ((((s.set (k - 4) a).set (k - 3) b).set (k - 2) b).set (k - 1) b).length
      = s.length ∧
    ∀ m,
      ((((s.set (k - 4) a).set (k - 3) b).set (k - 2) b).set
        (k - 1) b).getD m 0 =
      if m = k - 4 then a
      else if m = k - 3 ∨ m = k - 2 ∨ m = k - 1 then b
      else s.getD m 0 := by
  constructor
  · simp [List.length_set]
  · intro m
    by_cases h4 : m = k - 4
    · subst h4
      rw [if_pos rfl, getD_set_ne _ _ _ _ (by omega),
        getD_set_ne _ _ _ _ (by omega), getD_set_ne _ _ _ _ (by omega),
        getD_set_self _ _ _ (by omega)]
    · by_cases h3 : m = k - 3
      · subst h3
        rw [if_neg h4, if_pos (Or.inl rfl), getD_set_ne _ _ _ _ (by omega),
          getD_set_ne _ _ _ _ (by omega),
          getD_set_self _ _ _ (by simp [List.length_set]; omega)]
      · by_cases h2 : m = k - 2
        · subst h2
          rw [if_neg h4, if_pos (Or.inr (Or.inl rfl)),
            getD_set_ne _ _ _ _ (by omega),
            getD_set_self _ _ _ (by simp [List.length_set]; omega)]
        · by_cases h1 : m = k - 1
          · subst h1
            rw [if_neg h4, if_pos (Or.inr (Or.inr rfl)),
              getD_set_self _ _ _ (by simp [List.length_set]; omega)]
          · rw [if_neg h4, if_neg (by tauto), getD_set_ne _ _ _ _ (by omega),
              getD_set_ne _ _ _ _ (by omega), getD_set_ne _ _ _ _ (by omega),
              getD_set_ne _ _ _ _ (by omega)]

lemma melofix_fold_inv (cs : List Int)
    (H4 : ∀ n, n < cs.length → cs.getD n 0 = 58 → 4 ≤ n)
    (Hsp : ∀ n, n < cs.length → ∀ nn, nn < cs.length → cs.getD n 0 = 58 →
      cs.getD nn 0 = 58 → n < nn → n + 5 ≤ nn) :
    ∀ k, k ≤ cs.length →
      ((List.range k).foldl melofixStep cs).length = cs.length ∧
      ∀ m, m < cs.length →
        ((List.range k).foldl melofixStep cs).getD m 0 = expectedAt cs k m := by
  intro k
  induction k with
  | zero =>
    intro _
    exact ⟨rfl, fun m _ => rfl⟩
  | succ k ih =>
    intro hk1
    have hkL : k < cs.length := hk1
    obtain ⟨ihlen, ihval⟩ := ih (Nat.le_of_lt hkL)
    set s := (List.range k).foldl melofixStep cs with hs
    have hfold : (List.range (k + 1)).foldl melofixStep cs =
        melofixStep s k := by
      rw [List.range_succ, List.foldl_append, List.foldl_cons, List.foldl_nil]
    have hskk : s.getD k 0 = cs.getD k 0 := by
      rw [ihval k hkL]
      unfold expectedAt
      rw [firstPred58_self_none cs k]
    by_cases h58 : cs.getD k 0 = 58
    case neg =>
      have hstep : melofixStep s k = s := by
        unfold melofixStep
        rw [if_neg (by rw [hskk]; exact h58)]
      rw [hfold, hstep]
      refine ⟨ihlen, ?_⟩
      intro m hm
      rw [ihval m hm]
      have hcond : (cs.getD k 0 == 58 && decide (m + 1 ≤ k) &&
          decide (k ≤ m + 4)) = false := by
        apply Bool.eq_false_iff.mpr
        intro hcontra
        simp only [Bool.and_eq_true, beq_iff_eq, decide_eq_true_eq] at hcontra
        exact h58 hcontra.1.1
      have hfp : firstPred58 cs (k + 1) m = firstPred58 cs k m := by
        rw [firstPred58_succ, hcond]
        simp
      unfold expectedAt
      rw [hfp]
    case pos =>
      have hk4 : 4 ≤ k := H4 k hkL h58
      have hfpnone : ∀ mm, mm + 1 ≤ k → k ≤ mm + 4 →
          firstPred58 cs k mm = none := by
        intro mm h1 h2
        unfold firstPred58
        apply List.find?_eq_none.mpr
        intro n hn
        have hnk : n < k := List.mem_range.mp hn
        simp only [Bool.and_eq_true, beq_iff_eq, decide_eq_true_eq]
        rintro ⟨⟨hn58, hlo⟩, hhi⟩
        have := Hsp n (by omega) k hkL hn58 h58 hnk
        omega
      have hwin : ∀ mm, mm + 1 ≤ k → k ≤ mm + 4 →
          s.getD mm 0 = cs.getD mm 0 := by
        intro mm h1 h2
        rw [ihval mm (by omega)]
        unfold expectedAt
        rw [hfpnone mm h1 h2]
      have hgen : ∀ i : Int, 1 ≤ i → i ≤ 4 →
          npGet s ((k : Int) - i) = cs.getD (k - i.toNat) 0 := by
        intro i h1 h4
        unfold npGet
        have hcast : (k : Int) - i = ((k - i.toNat : Nat) : Int) := by omega
        rw [hcast, npIdx_natCast]
        exact hwin (k - i.toNat) (by omega) (by omega)
      have hg1 : npGet s ((k : Int) - 1) = cs.getD (k - 1) 0 := by
        simpa using hgen 1 (by norm_num) (by norm_num)
      have hg2 : npGet s ((k : Int) - 2) = cs.getD (k - 2) 0 := by
        simpa using hgen 2 (by norm_num) (by norm_num)
      have hg3 : npGet s ((k : Int) - 3) = cs.getD (k - 3) 0 := by
        simpa using hgen 3 (by norm_num) (by norm_num)
      have hg4 : npGet s ((k : Int) - 4) = cs.getD (k - 4) 0 := by
        simpa using hgen 4 (by norm_num) (by norm_num)
      have hstep : melofixStep s k =
          if cs.getD (k - 1) 0 = cs.getD (k - 2) 0 ∧
              cs.getD (k - 2) 0 = cs.getD (k - 3) 0 ∧
              cs.getD (k - 3) 0 = cs.getD (k - 4) 0 then
            (((s.set (k - 4) 1).set (k - 3) 2).set (k - 2) 2).set (k - 1) 2
          else
            (((s.set (k - 4) 3).set (k - 3) 4).set (k - 2) 4).set
              (k - 1) 4 := by
        unfold melofixStep
        rw [if_pos (hskk.trans h58), hg1, hg2, hg3, hg4]
        have e1 : (k : Int) - 1 = ((k - 1 : Nat) : Int) := by omega
        have e2 : (k : Int) - 2 = ((k - 2 : Nat) : Int) := by omega
        have e3 : (k : Int) - 3 = ((k - 3 : Nat) : Int) := by omega
        have e4 : (k : Int) - 4 = ((k - 4 : Nat) : Int) := by omega
        rw [e1, e2, e3, e4]
        simp only [npSet_natCast]
      have hweq : (cs.getD (k - 1) 0 = cs.getD (k - 2) 0 ∧
          cs.getD (k - 2) 0 = cs.getD (k - 3) 0 ∧
          cs.getD (k - 3) 0 = cs.getD (k - 4) 0) ↔
          windowAllEq cs k = true := by
        unfold windowAllEq
        simp [and_assoc]
      have key : ∀ (a b : Int),
          (windowAllEq cs k = true → a = 1 ∧ b = 2) →
          (windowAllEq cs k = false → a = 3 ∧ b = 4) →
          ∀ m, m < cs.length →
            ((((s.set (k - 4) a).set (k - 3) b).set (k - 2) b).set
              (k - 1) b).getD m 0 = expectedAt cs (k + 1) m := by
        intro a b hab1 hab0 m hm
        obtain ⟨_, hvals⟩ := setQuad_getD s k a b hk4 (by rw [ihlen]; exact hkL)
        rw [hvals m]
        by_cases hmw : m + 1 ≤ k ∧ k ≤ m + 4
        · have hfp : firstPred58 cs (k + 1) m = some k := by
            rw [firstPred58_succ, hfpnone m hmw.1 hmw.2,
              if_pos (by
                simp only [Bool.and_eq_true, beq_iff_eq, decide_eq_true_eq]
                exact ⟨⟨h58, hmw.1⟩, hmw.2⟩)]
            rfl
          have hexp : expectedAt cs (k + 1) m = claimValue cs k m := by
            unfold expectedAt
            rw [hfp]
          rw [hexp]
          unfold claimValue
          cases hwv : windowAllEq cs k with
          | false =>
            obtain ⟨ha, hb⟩ := hab0 hwv
            rw [if_neg (show ¬(false = true) by simp)]
            by_cases hm4 : m = k - 4
            · rw [if_pos hm4, ha, if_pos (show m + 4 = k by omega)]
            · rw [if_neg hm4,
                if_pos (show m = k - 3 ∨ m = k - 2 ∨ m = k - 1 by omega),
                hb, if_neg (show ¬(m + 4 = k) by omega)]
          | true =>
            obtain ⟨ha, hb⟩ := hab1 hwv
            rw [if_pos (show true = true from rfl)]
            by_cases hm4 : m = k - 4
            · rw [if_pos hm4, ha, if_pos (show m + 4 = k by omega)]
            · rw [if_neg hm4,
                if_pos (show m = k - 3 ∨ m = k - 2 ∨ m = k - 1 by omega),
                hb, if_neg (show ¬(m + 4 = k) by omega)]
        · have hlhs : (if m = k - 4 then a
              else if m = k - 3 ∨ m = k - 2 ∨ m = k - 1 then b
              else s.getD m 0) = s.getD m 0 := by
            rw [if_neg (by omega), if_neg (by omega)]
          rw [hlhs, ihval m hm]
          have hcf : (cs.getD k 0 == 58 && decide (m + 1 ≤ k) &&
              decide (k ≤ m + 4)) = false := by
            apply Bool.eq_false_iff.mpr
            intro hcontra
            simp only [Bool.and_eq_true, beq_iff_eq, decide_eq_true_eq]
              at hcontra
            exact hmw ⟨hcontra.1.2, hcontra.2⟩
          have hfp : firstPred58 cs (k + 1) m = firstPred58 cs k m := by
            rw [firstPred58_succ, hcf]
            simp
          unfold expectedAt
          rw [hfp]
      rw [hfold, hstep]
      constructor
      · split_ifs <;> simp [List.length_set, ihlen]
      · intro m hm
        split_ifs with hcond
        · have hw : windowAllEq cs k = true := hweq.mp hcond
          exact key 1 2 (fun _ => ⟨rfl, rfl⟩)
            (fun hf => absurd (hw.symm.trans hf).symm Bool.false_ne_true) m hm
        · have hw : windowAllEq cs k = false :=
            Bool.eq_false_iff.mpr (fun ht => hcond (hweq.mpr ht))
          exact key 3 4
            (fun ht => absurd (hw.symm.trans ht) Bool.false_ne_true)
            (fun _ => ⟨rfl, rfl⟩) m hm

lemma getProjectsLoop_selected :
    ∀ (prompts : List ProjectPrompt) (c : String) (ps : List String)
      (per : Option String),
      getProjectsLoop prompts = .selected c ps per →
      ps = [c] ∧ per = some c := by
  intro prompts
  induction prompts with
  | nil =>
    intro c ps per h
    simp [getProjectsLoop] at h
  | cons pr rest ih =>
    intro c ps per h
    by_cases h1 : pr.ok = true ∧ pr.text ≠ ""
    · rw [getProjectsLoop, if_pos h1] at h
      obtain ⟨hc, hps, hper⟩ := ProjSel.selected.injEq .. ▸ h
      exact ⟨by rw [← hps, hc], by rw [← hper, hc]⟩
    · rw [getProjectsLoop, if_neg h1] at h
      by_cases h2 : pr.cancelYes = true
      · simp [h2] at h
      · rw [if_neg h2] at h
        exact ih c ps per h

/-- C9: whenever project discovery returns normally (in either window), the
selected current project is a member of the projects list; the list equals
the discovered directories when any existed, and whatever name is persisted
to the settings is the selected one. -/
theorem project_selection_membership :
    (∀ (stored : Option String) (dirs : List String)
        (prompts : List ProjectPrompt) (c : String) (ps : List String)
        (per : Option String),
      get_projects stored dirs prompts = .selected c ps per →
      c ∈ ps ∧ (dirs ≠ [] → ps = dirs) ∧ (per = none ∨ per = some c)) ∧
    (∀ (stored : Option String) (dirs : List String) (ok : Bool)
        (text : String) (c : String) (ps : List String)
        (per : Option String),
      get_paths_project stored dirs ok text = .selected c ps per →
      c ∈ ps ∧ (dirs ≠ [] → ps = dirs) ∧ (per = none ∨ per = some c)) := by
  constructor
  · intro stored dirs prompts c ps per h
    cases dirs with
    | nil =>
      obtain ⟨hps, hper⟩ := getProjectsLoop_selected prompts c ps per h
      exact ⟨by simp [hps], fun hne => absurd rfl hne, Or.inr hper⟩
    | cons d rest =>
      cases stored with
      | none =>
        obtain ⟨hc, hps, hper⟩ := ProjSel.selected.injEq .. ▸ h
        refine ⟨?_, fun _ => hps.symm, Or.inr (by rw [← hper, hc])⟩
        rw [← hps, ← hc]
        exact List.mem_cons_self d rest
      | some p =>
        by_cases hmem : p ∈ d :: rest
        · rw [get_projects, if_pos hmem] at h
          obtain ⟨hc, hps, hper⟩ := ProjSel.selected.injEq .. ▸ h
          exact ⟨by rw [← hps, ← hc]; exact hmem, fun _ => hps.symm,
            Or.inl hper.symm⟩
        · rw [get_projects, if_neg hmem] at h
          obtain ⟨hc, hps, hper⟩ := ProjSel.selected.injEq .. ▸ h
          refine ⟨?_, fun _ => hps.symm, Or.inr (by rw [← hper, hc])⟩
          rw [← hps, ← hc]
          exact List.mem_cons_self d rest
  · intro stored dirs ok text c ps per h
    cases dirs with
    | nil =>
      cases ok with
      | false => simp [get_paths_project] at h
      | true =>
        rw [get_paths_project, if_pos rfl] at h
        obtain ⟨hc, hps, hper⟩ := ProjSel.selected.injEq .. ▸ h
        exact ⟨by simp [← hps, hc], fun hne => absurd rfl hne,
          Or.inr (by rw [← hper, hc])⟩
    | cons d rest =>
      cases stored with
      | none =>
        obtain ⟨hc, hps, hper⟩ := ProjSel.selected.injEq .. ▸ h
        refine ⟨?_, fun _ => hps.symm, Or.inr (by rw [← hper, hc])⟩
        rw [← hps, ← hc]
        exact List.mem_cons_self d rest
      | some p =>
        by_cases hmem : p ∈ d :: rest
        · rw [get_paths_project, if_pos hmem] at h
          obtain ⟨hc, hps, hper⟩ := ProjSel.selected.injEq .. ▸ h
          exact ⟨by rw [← hps, ← hc]; exact hmem, fun _ => hps.symm,
            Or.inl hper.symm⟩
        · rw [get_paths_project, if_neg hmem] at h
          obtain ⟨hc, hps, hper⟩ := ProjSel.selected.injEq .. ▸ h
          refine ⟨?_, fun _ => hps.symm, Or.inr (by rw [← hper, hc])⟩
          rw [← hps, ← hc]
          exact List.mem_cons_self d rest

/-- Witness for C9: a stored project name that is no longer among the
discovered directories falls back to the first directory, which is a
member of the list. -/
theorem project_selection_membership_witness :
    "P1" ∈ ["P1", "P2"] ∧ (["P1", "P2"] ≠ ([] : List String) →
      ["P1", "P2"] = ["P1", "P2"]) ∧
    ((some "P1" : Option String) = none ∨ (some "P1" : Option String) = some "P1") :=
  project_selection_membership.1 (some "gone") ["P1", "P2"] [] "P1"
    ["P1", "P2"] (some "P1") (by decide)

lemma bad_dict_assign_lists_aux (checked : List Char → Bool) :
    ∀ (l : List (List Char)) (a : List (List Char)) (b : List Nat),
      l.foldl
        (fun acc ch =>
          if checked ch then (acc.1 ++ [ch], acc.2 ++ [recoverNum ch])
          else acc) (a, b) =
      (a ++ l.filter checked, b ++ (l.filter checked).map recoverNum) := by
  intro l
  induction l with
  | nil => intro a b; simp
  | cons ch rest ih =>
    intro a b
    by_cases hch : checked ch = true
    · simp only [List.foldl_cons, if_pos hch, ih, List.filter_cons,
        hch, if_pos rfl]
      simp
    · simp only [List.foldl_cons, if_neg hch, ih, List.filter_cons]

/-- C10: recovering the number from the last three characters of a label is
a left inverse of the label construction on channel numbers 1 to 122, and
`bad_dict_assign` collects exactly the checked channel names together with
their recovered numbers, in the same order. -/
theorem bad_channel_label_roundtrip :
    (∀ x, 1 ≤ x → x ≤ 122 → recoverNum (mkChannelName x) = x) ∧
    (∀ (chkbts : List (List Char)) (checked : List Char → Bool),
      (bad_dict_assign_lists chkbts checked).1 = chkbts.filter checked ∧
      (bad_dict_assign_lists chkbts checked).2 =
        (chkbts.filter checked).map recoverNum) := by
  constructor
  · have hb : ∀ x, x < 123 → 1 ≤ x → recoverNum (mkChannelName x) = x := by
      decide
    intro x h1 h2
    exact hb x (by omega) h1
  · intro chkbts checked
    have := bad_dict_assign_lists_aux checked chkbts [] []
    rw [bad_dict_assign_lists, this]
    simp

/-- Witness for C10 at channel 58. -/
theorem bad_channel_label_roundtrip_witness :
    recoverNum (mkChannelName 58) = 58 :=
  bad_channel_label_roundtrip.1 58 (by decide) (by decide)

/-- C8 counterexample: the claim as stated is false. With event codes
[58, 9, 9, 9, 9] the code 58 sits at index 0; numpy negative indexing then
rewrites the codes at indices 1 to 4 (the end of the array), which are not
among the four preceding events of any code-58 event, so the
keep-your-code clause of the claim fails at index 1. -/
theorem melofix_claim_refuted : ¬MelofixClaim := by
  intro h
  have h2 := (h.2 [58, 9, 9, 9, 9] 1 (by decide)).1 (by decide)
  exact absurd h2 (by decide)

/-- C8 (amended): the empty event list fails the assertion, and provided
every code-58 event has index at least 4 and code-58 events are at least
five apart (so that no rewritten window wraps around the array end or
overlaps another), the four events preceding each code-58 event are
rewritten to 1,2,2,2 when their original codes were all equal and to
3,4,4,4 otherwise, while every event outside these windows keeps its
code. -/
theorem melofix_event_handling_characterization :
    melofixRun [] = none ∧
    ∀ cs : List Int,
      (∀ n, n < cs.length → cs.getD n 0 = 58 → 4 ≤ n) →
      (∀ n, n < cs.length → ∀ nn, nn < cs.length → cs.getD n 0 = 58 →
        cs.getD nn 0 = 58 → n < nn → n + 5 ≤ nn) →
      ∀ m, m < cs.length →
        (isPred58 cs m = false →
          (melofixPass cs).getD m 0 = cs.getD m 0) ∧
        (∀ n, n < cs.length → cs.getD n 0 = 58 → m + 1 ≤ n → n ≤ m + 4 →
          (melofixPass cs).getD m 0 = claimValue cs n m) := by
  refine ⟨rfl, ?_⟩
  intro cs H4 Hsp m hm
  have hinv := (melofix_fold_inv cs H4 Hsp cs.length le_rfl).2 m hm
  constructor
  · intro hfalse
    rw [show melofixPass cs = (List.range cs.length).foldl melofixStep cs
      from rfl, hinv]
    have hnone : firstPred58 cs cs.length m = none := by
      unfold firstPred58
      apply List.find?_eq_none.mpr
      intro n hn
      unfold isPred58 at hfalse
      exact List.any_eq_false.mp hfalse n hn
    unfold expectedAt
    rw [hnone]
  · intro n hnL hn58 hlo hhi
    rw [show melofixPass cs = (List.range cs.length).foldl melofixStep cs
      from rfl, hinv]
    have hex : ((List.range cs.length).find?
        (fun x => cs.getD x 0 == 58 && decide (m + 1 ≤ x) &&
          decide (x ≤ m + 4))).isSome := by
      apply List.find?_isSome.mpr
      refine ⟨n, List.mem_range.mpr hnL, ?_⟩
      simp only [Bool.and_eq_true, beq_iff_eq, decide_eq_true_eq]
      exact ⟨⟨hn58, hlo⟩, hhi⟩
    obtain ⟨n2, hfind⟩ := Option.isSome_iff_exists.mp hex
    have hmem := List.mem_of_find?_eq_some hfind
    have hpred := List.find?_some hfind
    have hn2L : n2 < cs.length := List.mem_range.mp hmem
    simp only [Bool.and_eq_true, beq_iff_eq, decide_eq_true_eq] at hpred
    obtain ⟨⟨h1, h2⟩, h3⟩ := hpred
    have heq : n2 = n := by
      rcases Nat.lt_trichotomy n2 n with hlt | he | hgt
      · have := Hsp n2 hn2L n hnL h1 hn58 hlt
        omega
      · exact he
      · have := Hsp n hnL n2 hn2L hn58 h1 hgt
        omega
    have hfp : firstPred58 cs cs.length m = some n := by
      unfold firstPred58
      rw [hfind, heq]
    unfold expectedAt
    rw [hfp]

/-- Witness for C8 at a concrete run with one code-58 event at index 4:
the window receives the predicted codes and the event after the 58 keeps
its code. -/
theorem melofix_event_handling_characterization_witness :
    (melofixPass [7, 7, 7, 7, 58, 6]).getD 0 0 =
      claimValue [7, 7, 7, 7, 58, 6] 4 0 ∧
    (melofixPass [7, 7, 7, 7, 58, 6]).getD 5 0 =
      ([7, 7, 7, 7, 58, 6] : List Int).getD 5 0 :=
  ⟨(melofix_event_handling_characterization.2 [7, 7, 7, 7, 58, 6]
      (by decide) (by decide) 0 (by decide)).2 4 (by decide) (by decide)
      (by decide) (by decide),
   (melofix_event_handling_characterization.2 [7, 7, 7, 7, 58, 6]
      (by decide) (by decide) 5 (by decide)).1 (by decide)⟩

end MNEPipelineHD
